import Mathlib

/-!
Shallow embedding of the BetterDays input/character-controller core:
the `InputManager` key tracker, `BaseCharacter.move`, and the `Archer`
animation state machine (`playAnimation`, `update`, `onRightClick`,
the two `setTimeout` callbacks), together with a small world model for
wall-clock time and pending timers.  Real-valued vector arithmetic is
modelled over `ℝ`; the engine `AnimationGroup.start` / `.stop` calls are
reified as an event trace.
-/

namespace BetterDays

/-- A 3-component vector, as used by the engine for positions and
movement directions. -/
@[ext] structure Vec3 where
  x : ℝ
  y : ℝ
  z : ℝ

/-- The zero vector `new Vector3(0, 0, 0)`. -/
def Vec3.zero : Vec3 := ⟨0, 0, 0⟩

/-- Euclidean length of a vector, `Vector3.length()`. -/
noncomputable def Vec3.length (v : Vec3) : ℝ :=
  Real.sqrt (v.x ^ 2 + v.y ^ 2 + v.z ^ 2)

/-- In-place normalization `Vector3.normalize()`: divide every component
by the length.  In the source it is only invoked on vectors of positive
length. -/
noncomputable def Vec3.normalize (v : Vec3) : Vec3 :=
  ⟨v.x / v.length, v.y / v.length, v.z / v.length⟩

/-- The key-state dictionary of `InputManager`: key identifier (stored
lowercased by the keydown/keyup handlers) to pressed flag; absent keys
read as `false`. -/
structure InputManager where
  keys : String → Bool

/-- The JavaScript `key.toLowerCase()` call: lowercase every character
of the key identifier. -/
def lowerKey (s : String) : String :=
  ⟨s.data.map Char.toLower⟩

/-- `InputManager.isKeyDown`: case-insensitive lookup into the key
dictionary. -/
def InputManager.isKeyDown (im : InputManager) (key : String) : Bool :=
  im.keys (lowerKey key)

/-- The raw accumulation loop of `InputManager.getMovementDirection`:
start from `(0,0,0)`, then `w` adds 1 to `z`, `s` subtracts 1 from `z`,
`a` subtracts 1 from `x`, `d` adds 1 to `x`. -/
def InputManager.rawDirection (im : InputManager) : Vec3 :=
  let d0 : Vec3 := ⟨0, 0, 0⟩
  let d1 : Vec3 := if im.isKeyDown "w" then { d0 with z := d0.z + 1 } else d0
  let d2 : Vec3 := if im.isKeyDown "s" then { d1 with z := d1.z - 1 } else d1
  let d3 : Vec3 := if im.isKeyDown "a" then { d2 with x := d2.x - 1 } else d2
  let d4 : Vec3 := if im.isKeyDown "d" then { d3 with x := d3.x + 1 } else d3
  d4

/-- `InputManager.getMovementDirection`: accumulate the raw WASD vector
and normalize it only when its length is positive. -/
noncomputable def InputManager.getMovementDirection (im : InputManager) : Vec3 :=
  let direction := im.rawDirection
  if 0 < direction.length then direction.normalize else direction

/-- An input state in which exactly the chosen subset of the four
movement keys is held and every other key is released. -/
def wasdInput (w s a d : Bool) : InputManager :=
  ⟨fun k => (k == "w" && w) || (k == "s" && s) || (k == "a" && a) || (k == "d" && d)⟩

/-- Dictionary key of the idle clip (`'standing-idle.glb'` with the
extension stripped). -/
def animIdle : String := "standing-idle"

/-- Dictionary key of the draw-arrow clip. -/
def animDrawArrow : String := "standing draw arrow"

/-- Dictionary key of the stationary-aiming (overdraw) clip. -/
def animAimOverdraw : String := "standing-aim-overdraw"

/-- Dictionary key of the recoil clip. -/
def animAimRecoil : String := "standing-aim-recoil"

/-- Dictionary key of the aim-walk-forward clip. -/
def animAimWalkForward : String := "standing-aim-walk-forward"

/-- Dictionary key of the aim-walk-back clip. -/
def animAimWalkBack : String := "standing-aim-walk-back"

/-- Dictionary key of the aim-walk-left clip. -/
def animAimWalkLeft : String := "standing-aim-walk-left"

/-- Dictionary key of the aim-walk-right clip. -/
def animAimWalkRight : String := "standing-aim-walk-right"

/-- Engine-side animation effects of one controller step, reifying the
`AnimationGroup.stop()` and `AnimationGroup.start(loop)` calls issued by
`Archer.playAnimation`. -/
inductive AnimEvent where
  | stop (name : String)
  | start (name : String) (loop : Bool)
deriving DecidableEq, Repr

/-- The mutable fields of `BaseCharacter`/`Archer` that the controller
logic touches: the aiming flag, the asset-load flag, the keys of the
loaded animation-group dictionary, the name of the currently playing
group (`null` = `none`), the movement speed, the mesh position, the
fallback mesh's `scaling.y`, and the `isMoving` flag. -/
structure ArcherState where
  isAiming : Bool
  modelLoaded : Bool
  animations : List String
  currentAnimation : Option String
  moveSpeed : ℝ
  position : Vec3
  scalingY : ℝ
  isMoving : Bool

/-- `Archer.playAnimation(animationName, loop)`: bail out when the model
is not loaded, when the named clip is absent from the dictionary, or
when the clip is already the one playing; otherwise stop the current
group (if any), start the new one, and record it as current. -/
def playAnimation (st : ArcherState) (animationName : String) (loop : Bool) :
    ArcherState × List AnimEvent :=
  if st.modelLoaded = false then (st, [])
  else if (st.animations.contains animationName) = false then (st, [])
  else if st.currentAnimation = some animationName then (st, [])
  else
    ({ st with currentAnimation := some animationName },
      (st.currentAnimation.toList.map AnimEvent.stop) ++ [AnimEvent.start animationName loop])

/-- `BaseCharacter.move(input)`: read the movement direction and, when
its length is positive, translate the position on the `x` and `z` axes
by `direction * moveSpeed`. -/
noncomputable def baseMove (im : InputManager) (st : ArcherState) : ArcherState :=
  let direction := im.getMovementDirection
  if 0 < direction.length then
    { st with position :=
        ⟨st.position.x + direction.x * st.moveSpeed,
          st.position.y,
          st.position.z + direction.z * st.moveSpeed⟩ }
  else st

/-- `Archer.move(input)`: record whether the character is moving, then
defer to `BaseCharacter.move`. -/
noncomputable def archerMove (im : InputManager) (st : ArcherState) : ArcherState :=
  let direction := im.getMovementDirection
  let st1 := { st with isMoving := decide (0 < direction.length) }
  baseMove im st1

/-- The animation-selection tail of `Archer.update`: gated on the model
being loaded and the animation dictionary being non-empty; while aiming,
test the movement axes in the source's order (forward, back, left,
right) and fall through to the overdraw clip; while not aiming, request
the idle clip when stationary and not already idle. -/
noncomputable def selectAnimation (im : InputManager) (st : ArcherState) :
    ArcherState × List AnimEvent :=
  if st.modelLoaded = true ∧ st.animations ≠ [] then
    let direction := im.getMovementDirection
    if st.isAiming = true then
      if 0 < direction.z then playAnimation st animAimWalkForward true
      else if direction.z < 0 then playAnimation st animAimWalkBack true
      else if direction.x < 0 then playAnimation st animAimWalkLeft true
      else if 0 < direction.x then playAnimation st animAimWalkRight true
      else if st.currentAnimation ≠ some animAimOverdraw then
        playAnimation st animAimOverdraw true
      else (st, [])
    else
      if ¬ 0 < direction.length ∧ st.currentAnimation ≠ some animIdle then
        playAnimation st animIdle true
      else (st, [])
  else (st, [])

/-- `Archer.update(input)`: set `moveSpeed` from the aiming flag (0.05
while aiming, 0.1 otherwise), run the inherited movement step, then the
animation-selection block. -/
noncomputable def archerUpdate (im : InputManager) (st : ArcherState) :
    ArcherState × List AnimEvent :=
  let st1 := { st with moveSpeed := if st.isAiming = true then (0.05 : ℝ) else 0.1 }
  let st2 := archerMove im st1
  selectAnimation im st2

/-- The two `setTimeout` callbacks scheduled by `Archer.onRightClick`:
the draw→overdraw transition (1000 ms) and the recoil→idle transition
(500 ms). -/
inductive TimerCb where
  | drawToOverdraw
  | recoilToIdle
deriving DecidableEq, Repr

/-- `Archer.onRightClick()`: flip the aiming flag; on entering aiming,
play the non-looping draw clip and schedule the overdraw transition
after 1000 ms (or stretch the fallback box when assets are unavailable);
on leaving aiming, play the non-looping recoil clip and schedule the
idle transition after 500 ms (or reset the fallback box).  Returns the
new state, the emitted animation events, and the schedule requests as
(delay in ms, callback) pairs. -/
noncomputable def onRightClick (st : ArcherState) :
    ArcherState × List AnimEvent × List (ℕ × TimerCb) :=
  let st0 := { st with isAiming := !st.isAiming }
  if st0.isAiming = true then
    if st0.modelLoaded = true ∧ (st0.animations.contains animDrawArrow) = true then
      let r := playAnimation st0 animDrawArrow false
      (r.1, r.2, [(1000, TimerCb.drawToOverdraw)])
    else
      ({ st0 with scalingY := 1.3 }, [], [])
  else
    if st0.modelLoaded = true ∧ (st0.animations.contains animAimRecoil) = true then
      let r := playAnimation st0 animAimRecoil false
      (r.1, r.2, [(500, TimerCb.recoilToIdle)])
    else
      ({ st0 with scalingY := 1.0 }, [], [])

/-- Body of a firing timer callback: each re-checks the current aiming
flag (and clip availability) before applying its transition, exactly as
in the source's `setTimeout` closures. -/
def applyTimer (cb : TimerCb) (st : ArcherState) : ArcherState × List AnimEvent :=
  match cb with
  | TimerCb.drawToOverdraw =>
      if st.isAiming = true ∧ (st.animations.contains animAimOverdraw) = true then
        playAnimation st animAimOverdraw true
      else (st, [])
  | TimerCb.recoilToIdle =>
      if st.isAiming = false ∧ (st.animations.contains animIdle) = true then
        playAnimation st animIdle true
      else (st, [])

/-- The single-threaded browser world: the archer, the current time in
milliseconds, and the pending `setTimeout` timers as (absolute fire
time, callback) pairs. -/
structure World where
  archer : ArcherState
  now : ℕ
  timers : List (ℕ × TimerCb)

/-- Deliver a right-click to the archer at the current time, converting
its relative schedule requests into absolute pending timers. -/
noncomputable def World.click (w : World) : World × List AnimEvent :=
  let r := onRightClick w.archer
  (⟨r.1, w.now, w.timers ++ r.2.2.map (fun p => (w.now + p.1, p.2))⟩, r.2.1)

/-- Let wall-clock time pass until instant `t` (no timer fires by
itself; firing is a separate step). -/
def World.advanceTo (w : World) (t : ℕ) : World :=
  { w with now := t }

/-- The pending timer with the least fire time (first among ties),
mirroring the browser's timer queue. -/
def earliest : List (ℕ × TimerCb) → Option (ℕ × TimerCb)
  | [] => none
  | t :: ts =>
      match earliest ts with
      | none => some t
      | some u => if t.1 ≤ u.1 then some t else some u

/-- Fire the earliest pending timer: advance the clock to its fire time,
run its callback against the archer, and remove it from the queue. -/
def World.fireNext (w : World) : World × List AnimEvent :=
  match earliest w.timers with
  | none => (w, [])
  | some tm =>
      let r := applyTimer tm.2 w.archer
      (⟨r.1, max w.now tm.1, w.timers.erase tm⟩, r.2)

/-- One externally triggered step of the session: a render tick with the
given input, a right-click, or the firing of the earliest due timer. -/
inductive Op where
  | frame (im : InputManager)
  | click
  | fire

/-- Apply one session step to the world. -/
noncomputable def World.step (w : World) : Op → World × List AnimEvent
  | Op.frame im =>
      let r := archerUpdate im w.archer
      ({ w with archer := r.1 }, r.2)
  | Op.click => w.click
  | Op.fire => w.fireNext

/-- Run a whole session, concatenating the animation events of every
step. -/
noncomputable def World.run : World → List Op → World × List AnimEvent
  | w, [] => (w, [])
  | w, op :: ops =>
      let r := w.step op
      let rest := World.run r.1 ops
      (rest.1, r.2 ++ rest.2)

/-- Engine-side effect of one animation event on the set of playing
animation groups. -/
def applyAnimEvent (playing : List String) : AnimEvent → List String
  | AnimEvent.stop n => playing.erase n
  | AnimEvent.start n _ => playing ++ [n]

/-- Engine-side effect of a whole event trace on the set of playing
animation groups. -/
def applyAnimEvents (playing : List String) (evs : List AnimEvent) : List String :=
  evs.foldl applyAnimEvent playing

/-- The clip the specification's fixed priority order designates for a
movement direction while aiming.
Modelled from the spec: forward-positive, forward-negative,
strafe-negative, strafe-positive, else the stationary overdraw clip. -/
noncomputable def specAimClip (d : Vec3) : String :=
  if 0 < d.z then animAimWalkForward
  else if d.z < 0 then animAimWalkBack
  else if d.x < 0 then animAimWalkLeft
  else if 0 < d.x then animAimWalkRight
  else animAimOverdraw

/-- The full dictionary of the eight clip names the asset loader
registers. -/
def allAnims : List String :=
  [animIdle, animDrawArrow, animAimOverdraw, animAimRecoil, animAimWalkForward,
    animAimWalkBack, animAimWalkLeft, animAimWalkRight]

/-- A sample steady aiming state with every clip loaded and the
overdraw clip playing, used to instantiate scenario theorems. -/
noncomputable def aimingOverdrawState : ArcherState :=
  ⟨true, true, allAnims, some animAimOverdraw, 0.05, ⟨0, 0, 0⟩, 1, false⟩

/-! ## Basic vector lemmas -/

theorem Vec3.length_nonneg (v : Vec3) : 0 ≤ v.length :=
  Real.sqrt_nonneg _

theorem Vec3.length_eq_zero_iff (v : Vec3) : v.length = 0 ↔ v = Vec3.zero := by
  unfold Vec3.length
  constructor
  · intro h
    have hle : v.x ^ 2 + v.y ^ 2 + v.z ^ 2 ≤ 0 := Real.sqrt_eq_zero'.mp h
    have hx : v.x ^ 2 = 0 :=
      le_antisymm (by nlinarith [sq_nonneg v.y, sq_nonneg v.z]) (sq_nonneg _)
    have hy : v.y ^ 2 = 0 :=
      le_antisymm (by nlinarith [sq_nonneg v.x, sq_nonneg v.z]) (sq_nonneg _)
    have hz : v.z ^ 2 = 0 :=
      le_antisymm (by nlinarith [sq_nonneg v.x, sq_nonneg v.y]) (sq_nonneg _)
    have : v.x = 0 := sq_eq_zero_iff.mp hx
    have : v.y = 0 := sq_eq_zero_iff.mp hy
    have : v.z = 0 := sq_eq_zero_iff.mp hz
    ext <;> simp_all [Vec3.zero]
  · intro h
    subst h
    simp [Vec3.zero]

theorem Vec3.length_pos_iff (v : Vec3) : 0 < v.length ↔ v ≠ Vec3.zero := by
  constructor
  · intro h he
    rw [← Vec3.length_eq_zero_iff] at he
    exact absurd (he ▸ h) (lt_irrefl 0)
  · intro h
    rcases lt_or_eq_of_le (Vec3.length_nonneg v) with hlt | heq
    · exact hlt
    · exact absurd ((Vec3.length_eq_zero_iff v).mp heq.symm) h

theorem Vec3.length_normalize (v : Vec3) (h : 0 < v.length) :
    v.normalize.length = 1 := by
  have hS : 0 < v.x ^ 2 + v.y ^ 2 + v.z ^ 2 := Real.sqrt_pos.mp h
  show Real.sqrt _ = 1
  unfold Vec3.normalize Vec3.length
  simp only [div_pow, div_add_div_same]
  rw [Real.sq_sqrt hS.le, div_self hS.ne']
  exact Real.sqrt_one

theorem length_getMovementDirection (im : InputManager) :
    im.getMovementDirection.length = 0 ∨ im.getMovementDirection.length = 1 := by
  unfold InputManager.getMovementDirection
  by_cases h : 0 < im.rawDirection.length
  · right
    simp only [if_pos h]
    exact Vec3.length_normalize _ h
  · left
    simp only [if_neg h]
    exact le_antisymm (not_lt.mp h) (Vec3.length_nonneg _)

/-! ## WASD raw-direction lemmas -/

theorem isKeyDown_wasd_w (w s a d : Bool) :
    (wasdInput w s a d).isKeyDown "w" = w := by
  cases w <;> cases s <;> cases a <;> cases d <;> decide

theorem isKeyDown_wasd_s (w s a d : Bool) :
    (wasdInput w s a d).isKeyDown "s" = s := by
  cases w <;> cases s <;> cases a <;> cases d <;> decide

theorem isKeyDown_wasd_a (w s a d : Bool) :
    (wasdInput w s a d).isKeyDown "a" = a := by
  cases w <;> cases s <;> cases a <;> cases d <;> decide

theorem isKeyDown_wasd_d (w s a d : Bool) :
    (wasdInput w s a d).isKeyDown "d" = d := by
  cases w <;> cases s <;> cases a <;> cases d <;> decide

theorem rawDirection_wasd (w s a d : Bool) :
    (wasdInput w s a d).rawDirection =
      ⟨(if d then (1 : ℝ) else 0) - (if a then 1 else 0), 0,
        (if w then (1 : ℝ) else 0) - (if s then 1 else 0)⟩ := by
  unfold InputManager.rawDirection
  simp only [isKeyDown_wasd_w, isKeyDown_wasd_s, isKeyDown_wasd_a, isKeyDown_wasd_d]
  cases w <;> cases s <;> cases a <;> cases d <;>
    · apply Vec3.ext <;> norm_num

theorem getMovementDirection_x_eq_zero (im : InputManager)
    (h : im.rawDirection.x = 0) : im.getMovementDirection.x = 0 := by
  unfold InputManager.getMovementDirection
  by_cases hp : 0 < im.rawDirection.length
  · simp only [if_pos hp, Vec3.normalize, h, zero_div]
  · simp only [if_neg hp]
    exact h

theorem getMovementDirection_z_eq_zero (im : InputManager)
    (h : im.rawDirection.z = 0) : im.getMovementDirection.z = 0 := by
  unfold InputManager.getMovementDirection
  by_cases hp : 0 < im.rawDirection.length
  · simp only [if_pos hp, Vec3.normalize, h, zero_div]
  · simp only [if_neg hp]
    exact h

theorem getMovementDirection_of_raw_zero (im : InputManager)
    (h : im.rawDirection = Vec3.zero) :
    im.getMovementDirection = im.rawDirection := by
  unfold InputManager.getMovementDirection
  have : ¬ 0 < im.rawDirection.length := by
    rw [Vec3.length_pos_iff]
    simp [h]
  simp only [if_neg this]

/-! ## Claim C1 -/

/-- Claim C1: for every subset of the four movement keys held
simultaneously (all others released), `getMovementDirection()` returns a
vector of length exactly 0 or exactly 1, with opposite-pair cancellation
(`w` and `s` both held give a zero forward component, `a` and `d` both
held give a zero strafe component), and a zero raw vector is returned
unchanged (it is never divided by zero). -/
theorem movementDirection_unit_or_zero (w s a d : Bool) :
    ((wasdInput w s a d).getMovementDirection.length = 0 ∨
      (wasdInput w s a d).getMovementDirection.length = 1)
    ∧ (w = true → s = true → (wasdInput w s a d).getMovementDirection.z = 0)
    ∧ (a = true → d = true → (wasdInput w s a d).getMovementDirection.x = 0)
    ∧ ((wasdInput w s a d).rawDirection = Vec3.zero →
        (wasdInput w s a d).getMovementDirection = (wasdInput w s a d).rawDirection) := by
  refine ⟨length_getMovementDirection _, ?_, ?_, getMovementDirection_of_raw_zero _⟩
  · intro hw hs
    apply getMovementDirection_z_eq_zero
    rw [rawDirection_wasd, hw, hs]
    norm_num
  · intro ha hd
    apply getMovementDirection_x_eq_zero
    rw [rawDirection_wasd, ha, hd]
    norm_num

/-- Witness for C1 at the all-four-keys-held input, where both opposite
pairs cancel and the raw vector is zero. -/
theorem movementDirection_unit_or_zero_witness :
    (wasdInput true true true true).getMovementDirection.z = 0
    ∧ (wasdInput true true true true).getMovementDirection.x = 0
    ∧ ((wasdInput true true true true).getMovementDirection.length = 0 ∨
        (wasdInput true true true true).getMovementDirection.length = 1)
    ∧ (wasdInput true true true true).getMovementDirection =
        (wasdInput true true true true).rawDirection := by
  have h := movementDirection_unit_or_zero true true true true
  refine ⟨h.2.1 rfl rfl, h.2.2.1 rfl rfl, h.1, h.2.2.2 ?_⟩
  rw [rawDirection_wasd]
  apply Vec3.ext <;> norm_num [Vec3.zero]

/-! ## playAnimation lemmas -/

theorem playAnimation_not_loaded (st : ArcherState) (n : String) (l : Bool)
    (h : st.modelLoaded = false) : playAnimation st n l = (st, []) := by
  unfold playAnimation
  rw [if_pos h]

theorem playAnimation_absent (st : ArcherState) (n : String) (l : Bool)
    (h : (st.animations.contains n) = false) : playAnimation st n l = (st, []) := by
  unfold playAnimation
  split_ifs <;> simp_all

theorem playAnimation_already (st : ArcherState) (n : String) (l : Bool)
    (h : st.currentAnimation = some n) : playAnimation st n l = (st, []) := by
  unfold playAnimation
  split_ifs <;> simp_all

theorem playAnimation_success (st : ArcherState) (n : String) (l : Bool)
    (hM : st.modelLoaded = true) (hc : (st.animations.contains n) = true)
    (hne : st.currentAnimation ≠ some n) :
    playAnimation st n l =
      ({ st with currentAnimation := some n },
        st.currentAnimation.toList.map AnimEvent.stop ++ [AnimEvent.start n l]) := by
  unfold playAnimation
  split_ifs <;> simp_all

theorem playAnimation_preserves (st : ArcherState) (n : String) (l : Bool) :
    (playAnimation st n l).1.isAiming = st.isAiming
    ∧ (playAnimation st n l).1.modelLoaded = st.modelLoaded
    ∧ (playAnimation st n l).1.animations = st.animations
    ∧ (playAnimation st n l).1.moveSpeed = st.moveSpeed
    ∧ (playAnimation st n l).1.position = st.position
    ∧ (playAnimation st n l).1.scalingY = st.scalingY
    ∧ (playAnimation st n l).1.isMoving = st.isMoving := by
  unfold playAnimation
  split_ifs <;> simp

theorem playAnimation_idem (st : ArcherState) (n : String) (l l' : Bool) :
    playAnimation (playAnimation st n l).1 n l' = ((playAnimation st n l).1, []) := by
  by_cases hM : st.modelLoaded = false
  · rw [playAnimation_not_loaded st n l hM]
    exact playAnimation_not_loaded st n l' hM
  · have hM' : st.modelLoaded = true := by
      revert hM
      cases st.modelLoaded <;> simp
    by_cases hc : (st.animations.contains n) = false
    · rw [playAnimation_absent st n l hc]
      exact playAnimation_absent st n l' hc
    · have hc' : (st.animations.contains n) = true := by
        revert hc
        cases st.animations.contains n <;> simp
      by_cases hcur : st.currentAnimation = some n
      · rw [playAnimation_already st n l hcur]
        exact playAnimation_already st n l' hcur
      · rw [playAnimation_success st n l hM' hc' hcur]
        exact playAnimation_already _ n l' rfl

/-! ## Claim C10 -/

/-- Claim C10: at most one animation group plays at a time.  Starting
from an engine whose set of playing groups is exactly the group named by
`currentAnimation` (or empty), any `playAnimation` call leaves the
playing set equal to the group named by the updated `currentAnimation`;
moreover a successful start is always preceded by stopping the
previously playing group. -/
theorem playAnimation_single_playing (st : ArcherState) (n : String) (l : Bool) :
    applyAnimEvents st.currentAnimation.toList (playAnimation st n l).2 =
      (playAnimation st n l).1.currentAnimation.toList
    ∧ ((playAnimation st n l).2 = [] ∨
        (playAnimation st n l).2 =
          st.currentAnimation.toList.map AnimEvent.stop ++ [AnimEvent.start n l]) := by
  unfold playAnimation
  split_ifs with h1 h2 h3
  · simp [applyAnimEvents]
  · simp [applyAnimEvents]
  · simp [applyAnimEvents, h3]
  · cases h : st.currentAnimation <;>
      simp [applyAnimEvents, applyAnimEvent, h]

/-! ## Claim C3 -/

/-- Claim C3: the animation-selection step is idempotent — running it a
second time with unchanged inputs leaves the state unchanged and emits
no animation events at all, so the clip already playing is never
restarted. -/
theorem selectAnimation_idempotent (im : InputManager) (st : ArcherState) :
    selectAnimation im (selectAnimation im st).1 = ((selectAnimation im st).1, []) := by
  by_cases hG : st.modelLoaded = true ∧ st.animations ≠ []
  · obtain ⟨hM, hNE⟩ := hG
    by_cases hA : st.isAiming = true
    · by_cases h1 : 0 < im.getMovementDirection.z
      · have e1 : selectAnimation im st = playAnimation st animAimWalkForward true := by
          simp only [selectAnimation]
          rw [if_pos ⟨hM, hNE⟩, if_pos hA, if_pos h1]
        rw [e1]
        have pres := playAnimation_preserves st animAimWalkForward true
        simp only [selectAnimation]
        rw [if_pos ⟨pres.2.1.trans hM, pres.2.2.1 ▸ hNE⟩, if_pos (pres.1.trans hA),
          if_pos h1]
        exact playAnimation_idem st animAimWalkForward true true
      · by_cases h2 : im.getMovementDirection.z < 0
        · have e1 : selectAnimation im st = playAnimation st animAimWalkBack true := by
            simp only [selectAnimation]
            rw [if_pos ⟨hM, hNE⟩, if_pos hA, if_neg h1, if_pos h2]
          rw [e1]
          have pres := playAnimation_preserves st animAimWalkBack true
          simp only [selectAnimation]
          rw [if_pos ⟨pres.2.1.trans hM, pres.2.2.1 ▸ hNE⟩, if_pos (pres.1.trans hA),
            if_neg h1, if_pos h2]
          exact playAnimation_idem st animAimWalkBack true true
        · by_cases h3 : im.getMovementDirection.x < 0
          · have e1 : selectAnimation im st = playAnimation st animAimWalkLeft true := by
              simp only [selectAnimation]
              rw [if_pos ⟨hM, hNE⟩, if_pos hA, if_neg h1, if_neg h2, if_pos h3]
            rw [e1]
            have pres := playAnimation_preserves st animAimWalkLeft true
            simp only [selectAnimation]
            rw [if_pos ⟨pres.2.1.trans hM, pres.2.2.1 ▸ hNE⟩, if_pos (pres.1.trans hA),
              if_neg h1, if_neg h2, if_pos h3]
            exact playAnimation_idem st animAimWalkLeft true true
          · by_cases h4 : 0 < im.getMovementDirection.x
            · have e1 : selectAnimation im st = playAnimation st animAimWalkRight true := by
                simp only [selectAnimation]
                rw [if_pos ⟨hM, hNE⟩, if_pos hA, if_neg h1, if_neg h2, if_neg h3, if_pos h4]
              rw [e1]
              have pres := playAnimation_preserves st animAimWalkRight true
              simp only [selectAnimation]
              rw [if_pos ⟨pres.2.1.trans hM, pres.2.2.1 ▸ hNE⟩, if_pos (pres.1.trans hA),
                if_neg h1, if_neg h2, if_neg h3, if_pos h4]
              exact playAnimation_idem st animAimWalkRight true true
            · by_cases h5 : st.currentAnimation ≠ some animAimOverdraw
              · have e1 : selectAnimation im st = playAnimation st animAimOverdraw true := by
                  simp only [selectAnimation]
                  rw [if_pos ⟨hM, hNE⟩, if_pos hA, if_neg h1, if_neg h2, if_neg h3,
                    if_neg h4, if_pos h5]
                rw [e1]
                have pres := playAnimation_preserves st animAimOverdraw true
                simp only [selectAnimation]
                rw [if_pos ⟨pres.2.1.trans hM, pres.2.2.1 ▸ hNE⟩, if_pos (pres.1.trans hA),
                  if_neg h1, if_neg h2, if_neg h3, if_neg h4]
                by_cases hc : (st.animations.contains animAimOverdraw) = true
                · have e2 := playAnimation_success st animAimOverdraw true hM hc h5
                  rw [if_neg (by rw [e2]; simp)]
                · have hc' : (st.animations.contains animAimOverdraw) = false := by
                    revert hc
                    cases st.animations.contains animAimOverdraw <;> simp
                  have e2 := playAnimation_absent st animAimOverdraw true hc'
                  rw [e2, if_pos (by simpa using h5)]
                  simpa using e2
              · have e1 : selectAnimation im st = (st, []) := by
                  simp only [selectAnimation]
                  rw [if_pos ⟨hM, hNE⟩, if_pos hA, if_neg h1, if_neg h2, if_neg h3,
                    if_neg h4, if_neg h5]
                rw [e1]
                exact e1
    · by_cases h6 : ¬ 0 < im.getMovementDirection.length ∧
          st.currentAnimation ≠ some animIdle
      · have e1 : selectAnimation im st = playAnimation st animIdle true := by
          simp only [selectAnimation]
          rw [if_pos ⟨hM, hNE⟩, if_neg hA, if_pos h6]
        rw [e1]
        have pres := playAnimation_preserves st animIdle true
        simp only [selectAnimation]
        rw [if_pos ⟨pres.2.1.trans hM, pres.2.2.1 ▸ hNE⟩,
          if_neg (fun hx => hA (pres.1 ▸ hx))]
        by_cases hc : (st.animations.contains animIdle) = true
        · have e2 := playAnimation_success st animIdle true hM hc h6.2
          rw [if_neg (by rw [e2]; simp)]
        · have hc' : (st.animations.contains animIdle) = false := by
            revert hc
            cases st.animations.contains animIdle <;> simp
          have e2 := playAnimation_absent st animIdle true hc'
          rw [e2, if_pos (by simpa using h6)]
          simpa using e2
      · have e1 : selectAnimation im st = (st, []) := by
          simp only [selectAnimation]
          rw [if_pos ⟨hM, hNE⟩, if_neg hA, if_neg h6]
        rw [e1]
        exact e1
  · have e1 : selectAnimation im st = (st, []) := by
      simp only [selectAnimation]
      rw [if_neg hG]
    rw [e1]
    exact e1

/-! ## Preservation lemmas for the movement and selection steps -/

theorem archerMove_preserves (im : InputManager) (st : ArcherState) :
    (archerMove im st).isAiming = st.isAiming
    ∧ (archerMove im st).modelLoaded = st.modelLoaded
    ∧ (archerMove im st).animations = st.animations
    ∧ (archerMove im st).currentAnimation = st.currentAnimation
    ∧ (archerMove im st).moveSpeed = st.moveSpeed
    ∧ (archerMove im st).scalingY = st.scalingY := by
  simp only [archerMove, baseMove]
  split_ifs <;> simp

theorem selectAnimation_shape (im : InputManager) (st : ArcherState) :
    selectAnimation im st = (st, []) ∨
      ∃ n, selectAnimation im st = playAnimation st n true := by
  simp only [selectAnimation]
  split_ifs <;> first
    | (left ; rfl)
    | (right ; exact ⟨_, rfl⟩)

theorem selectAnimation_preserves (im : InputManager) (st : ArcherState) :
    (selectAnimation im st).1.isAiming = st.isAiming
    ∧ (selectAnimation im st).1.modelLoaded = st.modelLoaded
    ∧ (selectAnimation im st).1.animations = st.animations
    ∧ (selectAnimation im st).1.moveSpeed = st.moveSpeed
    ∧ (selectAnimation im st).1.position = st.position
    ∧ (selectAnimation im st).1.scalingY = st.scalingY := by
  rcases selectAnimation_shape im st with h | ⟨n, h⟩ <;>
    · rw [h]
      simp [playAnimation_preserves]

/-! ## Claim C6 -/

/-- Claim C6: every per-frame update first derives `moveSpeed` from the
aiming flag sampled at the start of the frame — the fixed aiming
constant 0.05 when aiming, the fixed normal constant 0.1 otherwise —
and the aiming constant is strictly smaller than the normal one. -/
theorem moveSpeed_matches_aiming (im : InputManager) (st : ArcherState) :
    ((archerUpdate im st).1.moveSpeed = if st.isAiming = true then (0.05 : ℝ) else 0.1)
    ∧ (0.05 : ℝ) < 0.1 := by
  constructor
  · unfold archerUpdate
    rw [(selectAnimation_preserves _ _).2.2.2.1, (archerMove_preserves _ _).2.2.2.2.1]
  · norm_num

/-! ## Claim C8 -/

/-- Claim C8: the movement step translates the position by
`direction * moveSpeed` on the two ground axes only — the vertical
coordinate is never modified — and leaves the state unchanged when the
movement direction is zero. -/
theorem move_translates_ground_axes (im : InputManager) (st : ArcherState) :
    (baseMove im st).position.y = st.position.y
    ∧ (im.getMovementDirection ≠ Vec3.zero →
        (baseMove im st).position =
          ⟨st.position.x + im.getMovementDirection.x * st.moveSpeed,
            st.position.y,
            st.position.z + im.getMovementDirection.z * st.moveSpeed⟩)
    ∧ (im.getMovementDirection = Vec3.zero → baseMove im st = st) := by
  unfold baseMove
  by_cases h : 0 < im.getMovementDirection.length
  · simp only [if_pos h]
    refine ⟨?_, fun _ => ?_, fun hz => ?_⟩
    · trivial
    · trivial
    · exact absurd hz ((Vec3.length_pos_iff _).mp h)
  · simp only [if_neg h]
    refine ⟨?_, fun hnz => ?_, fun _ => ?_⟩
    · trivial
    · exact absurd ((Vec3.length_pos_iff _).mpr hnz) h
    · trivial

/-- Concrete evaluation of the movement direction when only the `w` key
is held: the forward unit vector. -/
theorem getMovementDirection_w_only :
    (wasdInput true false false false).getMovementDirection = ⟨0, 0, 1⟩ := by
  have hraw : (wasdInput true false false false).rawDirection = ⟨0, 0, 1⟩ := by
    rw [rawDirection_wasd]
    apply Vec3.ext <;> norm_num
  have hl : (⟨0, 0, 1⟩ : Vec3).length = 1 := by
    unfold Vec3.length
    norm_num [Real.sqrt_one]
  unfold InputManager.getMovementDirection
  rw [hraw, if_pos (by rw [hl] ; norm_num)]
  unfold Vec3.normalize
  rw [hl]
  apply Vec3.ext <;> norm_num

/-- Witness for C8: with only `w` held and a state at the origin, the
movement direction is non-zero and the position is translated on the
ground axes. -/
theorem move_translates_ground_axes_witness :
    (wasdInput true false false false).getMovementDirection ≠ Vec3.zero
    ∧ (baseMove (wasdInput true false false false)
          ⟨false, true, [], none, 0.1, ⟨0, 0, 0⟩, 1, false⟩).position =
        ⟨(⟨false, true, [], none, 0.1, ⟨0, 0, 0⟩, 1, false⟩ : ArcherState).position.x +
            (wasdInput true false false false).getMovementDirection.x *
              (⟨false, true, [], none, 0.1, ⟨0, 0, 0⟩, 1, false⟩ : ArcherState).moveSpeed,
          (⟨false, true, [], none, 0.1, ⟨0, 0, 0⟩, 1, false⟩ : ArcherState).position.y,
          (⟨false, true, [], none, 0.1, ⟨0, 0, 0⟩, 1, false⟩ : ArcherState).position.z +
            (wasdInput true false false false).getMovementDirection.z *
              (⟨false, true, [], none, 0.1, ⟨0, 0, 0⟩, 1, false⟩ : ArcherState).moveSpeed⟩ := by
  have hne : (wasdInput true false false false).getMovementDirection ≠ Vec3.zero := by
    rw [getMovementDirection_w_only]
    intro h
    have := congrArg Vec3.z h
    norm_num [Vec3.zero] at this
  exact ⟨hne, (move_translates_ground_axes _ _).2.1 hne⟩

/-! ## Claim C9 -/

/-- Claim C9: the right-click toggle mutates only the aiming flag and
animation/visual state — it never touches the position or `moveSpeed` —
so immediately after a toggle from a consistent frame, `moveSpeed`
disagrees with the new aiming flag until the next update re-derives
it. -/
theorem rightClick_pure_toggle (st : ArcherState) :
    (onRightClick st).1.position = st.position
    ∧ (onRightClick st).1.moveSpeed = st.moveSpeed
    ∧ (onRightClick st).1.isAiming = !st.isAiming
    ∧ (st.moveSpeed = (if st.isAiming = true then (0.05 : ℝ) else 0.1) →
        (onRightClick st).1.moveSpeed ≠
          (if (onRightClick st).1.isAiming = true then (0.05 : ℝ) else 0.1)) := by
  have h1 : (onRightClick st).1.position = st.position
      ∧ (onRightClick st).1.moveSpeed = st.moveSpeed
      ∧ (onRightClick st).1.isAiming = !st.isAiming := by
    simp only [onRightClick]
    split_ifs <;> simp [playAnimation_preserves]
  refine ⟨h1.1, h1.2.1, h1.2.2, fun hms => ?_⟩
  rw [h1.2.1, h1.2.2, hms]
  cases st.isAiming <;> norm_num

/-- Witness for C9 at a consistent non-aiming state: after the toggle
the speed still holds the normal constant while the flag says aiming. -/
theorem rightClick_pure_toggle_witness :
    ((⟨false, true, [], none, 0.1, ⟨0, 0, 0⟩, 1, false⟩ : ArcherState).moveSpeed =
        if (⟨false, true, [], none, 0.1, ⟨0, 0, 0⟩, 1, false⟩ : ArcherState).isAiming = true
        then (0.05 : ℝ) else 0.1)
    ∧ (onRightClick ⟨false, true, [], none, 0.1, ⟨0, 0, 0⟩, 1, false⟩).1.moveSpeed ≠
        (if (onRightClick ⟨false, true, [], none, 0.1, ⟨0, 0, 0⟩, 1, false⟩).1.isAiming = true
          then (0.05 : ℝ) else 0.1) := by
  have hms : (⟨false, true, [], none, 0.1, ⟨0, 0, 0⟩, 1, false⟩ : ArcherState).moveSpeed =
      if (⟨false, true, [], none, 0.1, ⟨0, 0, 0⟩, 1, false⟩ : ArcherState).isAiming = true
      then (0.05 : ℝ) else 0.1 := by
    norm_num
  exact ⟨hms, (rightClick_pure_toggle _).2.2.2 hms⟩

/-! ## Claim C2 -/

/-- The priority selection of the aiming branch of `selectAnimation`,
stated against the specification's clip function `specAimClip`: every
emitted start event names the priority-designated clip, and when that
clip is loaded it ends up as the current animation. -/
theorem selectAnim_priority (im : InputManager) (st : ArcherState)
    (hA : st.isAiming = true) (hM : st.modelLoaded = true)
    (hNE : st.animations ≠ []) :
    (∀ e ∈ (selectAnimation im st).2, ∀ n l, e = AnimEvent.start n l →
        n = specAimClip im.getMovementDirection)
    ∧ (specAimClip im.getMovementDirection ∈ st.animations →
        (selectAnimation im st).1.currentAnimation =
          some (specAimClip im.getMovementDirection)) := by
  have main : ∀ N, selectAnimation im st = playAnimation st N true →
      N = specAimClip im.getMovementDirection →
      (∀ e ∈ (selectAnimation im st).2, ∀ n l, e = AnimEvent.start n l →
          n = specAimClip im.getMovementDirection)
      ∧ (specAimClip im.getMovementDirection ∈ st.animations →
          (selectAnimation im st).1.currentAnimation =
            some (specAimClip im.getMovementDirection)) := by
    intro N hsel hN
    rw [hsel, ← hN]
    constructor
    · intro e he n l hel
      by_cases hc : (st.animations.contains N) = true
      · by_cases hcur : st.currentAnimation = some N
        · rw [playAnimation_already st N true hcur] at he
          simp at he
        · rw [playAnimation_success st N true hM hc hcur] at he
          simp only [List.mem_append, List.mem_map, List.mem_singleton] at he
          rcases he with ⟨c, -, hstop⟩ | hstart
          · rw [hel] at hstop
            cases hstop
          · rw [hel] at hstart
            cases hstart
            rfl
      · have hc' : (st.animations.contains N) = false := by
          revert hc
          cases st.animations.contains N <;> simp
        rw [playAnimation_absent st N true hc'] at he
        simp at he
    · intro hmem
      have hc : (st.animations.contains N) = true := List.elem_iff.mpr hmem
      by_cases hcur : st.currentAnimation = some N
      · rw [playAnimation_already st N true hcur]
        exact hcur
      · rw [playAnimation_success st N true hM hc hcur]
  by_cases h1 : 0 < im.getMovementDirection.z
  · refine main animAimWalkForward ?_ ?_
    · simp only [selectAnimation]
      rw [if_pos ⟨hM, hNE⟩, if_pos hA, if_pos h1]
    · simp only [specAimClip]
      rw [if_pos h1]
  · by_cases h2 : im.getMovementDirection.z < 0
    · refine main animAimWalkBack ?_ ?_
      · simp only [selectAnimation]
        rw [if_pos ⟨hM, hNE⟩, if_pos hA, if_neg h1, if_pos h2]
      · simp only [specAimClip]
        rw [if_neg h1, if_pos h2]
    · by_cases h3 : im.getMovementDirection.x < 0
      · refine main animAimWalkLeft ?_ ?_
        · simp only [selectAnimation]
          rw [if_pos ⟨hM, hNE⟩, if_pos hA, if_neg h1, if_neg h2, if_pos h3]
        · simp only [specAimClip]
          rw [if_neg h1, if_neg h2, if_pos h3]
      · by_cases h4 : 0 < im.getMovementDirection.x
        · refine main animAimWalkRight ?_ ?_
          · simp only [selectAnimation]
            rw [if_pos ⟨hM, hNE⟩, if_pos hA, if_neg h1, if_neg h2, if_neg h3, if_pos h4]
          · simp only [specAimClip]
            rw [if_neg h1, if_neg h2, if_neg h3, if_pos h4]
        · have hspec : specAimClip im.getMovementDirection = animAimOverdraw := by
            simp only [specAimClip]
            rw [if_neg h1, if_neg h2, if_neg h3, if_neg h4]
          by_cases h5 : st.currentAnimation ≠ some animAimOverdraw
          · refine main animAimOverdraw ?_ hspec.symm
            simp only [selectAnimation]
            rw [if_pos ⟨hM, hNE⟩, if_pos hA, if_neg h1, if_neg h2, if_neg h3, if_neg h4,
              if_pos h5]
          · have hsel : selectAnimation im st = (st, []) := by
              simp only [selectAnimation]
              rw [if_pos ⟨hM, hNE⟩, if_pos hA, if_neg h1, if_neg h2, if_neg h3, if_neg h4,
                if_neg h5]
            rw [hsel, hspec]
            refine ⟨fun e he => absurd he (List.not_mem_nil e), fun _ => ?_⟩
            push_neg at h5
            exact h5

/-- The claim-C2 theorem lifted to the full per-frame update (see
`aimAnimation_priority`). -/
theorem archerUpdate_eq_select (im : InputManager) (st : ArcherState) :
    archerUpdate im st =
      selectAnimation im
        (archerMove im { st with moveSpeed := if st.isAiming = true then (0.05 : ℝ) else 0.1 }) :=
  rfl

/-- Claim C2: in a per-frame update while aiming, with the model loaded
and at least one clip available, the clip is chosen by testing the
movement axes in the fixed priority order forward-positive,
forward-negative, strafe-negative, strafe-positive, falling back to the
aim-overdraw clip when no axis is non-zero (`specAimClip`): every start
event names that clip, and when it is loaded it becomes the current
animation. -/
theorem aimAnimation_priority (im : InputManager) (st : ArcherState)
    (hA : st.isAiming = true) (hM : st.modelLoaded = true)
    (hNE : st.animations ≠ []) :
    (∀ e ∈ (archerUpdate im st).2, ∀ n l, e = AnimEvent.start n l →
        n = specAimClip im.getMovementDirection)
    ∧ (specAimClip im.getMovementDirection ∈ st.animations →
        (archerUpdate im st).1.currentAnimation =
          some (specAimClip im.getMovementDirection)) := by
  have pres := archerMove_preserves im
    { st with moveSpeed := if st.isAiming = true then (0.05 : ℝ) else 0.1 }
  have hA2 := pres.1.trans hA
  have hM2 := pres.2.1.trans hM
  have hNE2 : (archerMove im
      { st with moveSpeed := if st.isAiming = true then (0.05 : ℝ) else 0.1 }).animations ≠ [] := by
    rw [pres.2.2.1]
    exact hNE
  have h := selectAnim_priority im _ hA2 hM2 hNE2
  rw [archerUpdate_eq_select]
  refine ⟨h.1, fun hmem => h.2 ?_⟩
  rw [pres.2.2.1]
  exact hmem

/-- Witness for C2: aiming with all clips loaded and only `w` held. -/
theorem aimAnimation_priority_witness :
    allAnims ≠ []
    ∧ ((∀ e ∈ (archerUpdate (wasdInput true false false false)
            ⟨true, true, allAnims, none, 0.1, ⟨0, 0, 0⟩, 1, false⟩).2, ∀ n l,
          e = AnimEvent.start n l →
          n = specAimClip (wasdInput true false false false).getMovementDirection)
        ∧ (specAimClip (wasdInput true false false false).getMovementDirection ∈ allAnims →
            (archerUpdate (wasdInput true false false false)
                ⟨true, true, allAnims, none, 0.1, ⟨0, 0, 0⟩, 1, false⟩).1.currentAnimation =
              some (specAimClip (wasdInput true false false false).getMovementDirection))) := by
  refine ⟨by simp [allAnims], aimAnimation_priority _ _ rfl rfl (by simp [allAnims])⟩

/-! ## onRightClick and timer-callback characterization -/

theorem onRightClick_toAiming (st : ArcherState)
    (hA : st.isAiming = false) (hM : st.modelLoaded = true)
    (hd : animDrawArrow ∈ st.animations)
    (hcur : st.currentAnimation ≠ some animDrawArrow) :
    onRightClick st =
      ({ st with isAiming := true, currentAnimation := some animDrawArrow },
        st.currentAnimation.toList.map AnimEvent.stop ++ [AnimEvent.start animDrawArrow false],
        [(1000, TimerCb.drawToOverdraw)]) := by
  simp only [onRightClick]
  split_ifs with h1 h2 h3
  · rw [playAnimation_success { st with isAiming := !st.isAiming } animDrawArrow false hM
      (List.elem_iff.mpr hd) hcur]
    simp [hA]
  · exact absurd ⟨hM, List.elem_iff.mpr hd⟩ h2
  · exact absurd (by simp [hA]) h1
  · exact absurd (by simp [hA]) h1

theorem onRightClick_fromAiming (st : ArcherState)
    (hA : st.isAiming = true) (hM : st.modelLoaded = true)
    (hr : animAimRecoil ∈ st.animations)
    (hcur : st.currentAnimation ≠ some animAimRecoil) :
    onRightClick st =
      ({ st with isAiming := false, currentAnimation := some animAimRecoil },
        st.currentAnimation.toList.map AnimEvent.stop ++ [AnimEvent.start animAimRecoil false],
        [(500, TimerCb.recoilToIdle)]) := by
  simp only [onRightClick]
  split_ifs with h1 h2 h3
  · exact absurd h1 (by simp [hA])
  · exact absurd h1 (by simp [hA])
  · rw [playAnimation_success { st with isAiming := !st.isAiming } animAimRecoil false hM
      (List.elem_iff.mpr hr) hcur]
    simp [hA]
  · exact absurd ⟨hM, List.elem_iff.mpr hr⟩ h3

theorem applyTimer_draw_still_aiming (st : ArcherState)
    (hA : st.isAiming = true) (hM : st.modelLoaded = true)
    (hov : animAimOverdraw ∈ st.animations)
    (hcur : st.currentAnimation ≠ some animAimOverdraw) :
    applyTimer TimerCb.drawToOverdraw st =
      ({ st with currentAnimation := some animAimOverdraw },
        st.currentAnimation.toList.map AnimEvent.stop ++
          [AnimEvent.start animAimOverdraw true]) := by
  simp only [applyTimer]
  rw [if_pos ⟨hA, List.elem_iff.mpr hov⟩]
  exact playAnimation_success st _ true hM (List.elem_iff.mpr hov) hcur

theorem applyTimer_draw_stale (st : ArcherState) (hA : st.isAiming = false) :
    applyTimer TimerCb.drawToOverdraw st = (st, []) := by
  simp only [applyTimer]
  rw [if_neg (by simp [hA])]

theorem applyTimer_recoil_to_idle (st : ArcherState)
    (hA : st.isAiming = false) (hM : st.modelLoaded = true)
    (hid : animIdle ∈ st.animations)
    (hcur : st.currentAnimation ≠ some animIdle) :
    applyTimer TimerCb.recoilToIdle st =
      ({ st with currentAnimation := some animIdle },
        st.currentAnimation.toList.map AnimEvent.stop ++ [AnimEvent.start animIdle true]) := by
  simp only [applyTimer]
  rw [if_pos ⟨hA, List.elem_iff.mpr hid⟩]
  exact playAnimation_success st _ true hM (List.elem_iff.mpr hid) hcur

theorem applyTimer_recoil_stale (st : ArcherState) (hA : st.isAiming = true) :
    applyTimer TimerCb.recoilToIdle st = (st, []) := by
  simp only [applyTimer]
  rw [if_neg (by simp [hA])]

/-! ## Claim C5 -/

/-- Claim C5: on a transition into aiming the one-shot non-looping draw
clip is played and the looping aim-overdraw clip is scheduled behind a
fixed 1000 ms delay, taking effect only if still aiming; on a transition
out of aiming the one-shot non-looping recoil clip is played and the
looping idle clip is scheduled behind a fixed 500 ms delay, taking
effect only if no longer aiming. -/
theorem aimTransition_clips (st : ArcherState) :
    (st.isAiming = false → st.modelLoaded = true → animDrawArrow ∈ st.animations →
      st.currentAnimation ≠ some animDrawArrow →
        (onRightClick st).1.isAiming = true
        ∧ (onRightClick st).2.1 =
            st.currentAnimation.toList.map AnimEvent.stop ++
              [AnimEvent.start animDrawArrow false]
        ∧ (onRightClick st).2.2 = [(1000, TimerCb.drawToOverdraw)]
        ∧ (onRightClick st).1.currentAnimation = some animDrawArrow)
    ∧ (st.isAiming = true → st.modelLoaded = true → animAimOverdraw ∈ st.animations →
        st.currentAnimation ≠ some animAimOverdraw →
          (applyTimer TimerCb.drawToOverdraw st).1.currentAnimation = some animAimOverdraw
          ∧ (applyTimer TimerCb.drawToOverdraw st).2 =
              st.currentAnimation.toList.map AnimEvent.stop ++
                [AnimEvent.start animAimOverdraw true])
    ∧ (st.isAiming = true → st.modelLoaded = true → animAimRecoil ∈ st.animations →
        st.currentAnimation ≠ some animAimRecoil →
          (onRightClick st).1.isAiming = false
          ∧ (onRightClick st).2.1 =
              st.currentAnimation.toList.map AnimEvent.stop ++
                [AnimEvent.start animAimRecoil false]
          ∧ (onRightClick st).2.2 = [(500, TimerCb.recoilToIdle)]
          ∧ (onRightClick st).1.currentAnimation = some animAimRecoil)
    ∧ (st.isAiming = false → st.modelLoaded = true → animIdle ∈ st.animations →
        st.currentAnimation ≠ some animIdle →
          (applyTimer TimerCb.recoilToIdle st).1.currentAnimation = some animIdle
          ∧ (applyTimer TimerCb.recoilToIdle st).2 =
              st.currentAnimation.toList.map AnimEvent.stop ++
                [AnimEvent.start animIdle true]) := by
  refine ⟨fun hA hM hd hcur => ?_, fun hA hM hov hcur => ?_,
    fun hA hM hr hcur => ?_, fun hA hM hid hcur => ?_⟩
  · rw [onRightClick_toAiming st hA hM hd hcur]
    exact ⟨rfl, rfl, rfl, rfl⟩
  · rw [applyTimer_draw_still_aiming st hA hM hov hcur]
    exact ⟨rfl, rfl⟩
  · rw [onRightClick_fromAiming st hA hM hr hcur]
    exact ⟨rfl, rfl, rfl, rfl⟩
  · rw [applyTimer_recoil_to_idle st hA hM hid hcur]
    exact ⟨rfl, rfl⟩

/-- Witness for C5: the draw-side conjuncts at a non-aiming idle state
and the recoil-side conjuncts at an aiming overdraw state, with all
clips loaded. -/
theorem aimTransition_clips_witness :
    ((onRightClick ⟨false, true, allAnims, some animIdle, 0.1, ⟨0, 0, 0⟩, 1, false⟩).1.isAiming
        = true
      ∧ (onRightClick ⟨false, true, allAnims, some animIdle, 0.1, ⟨0, 0, 0⟩, 1, false⟩).2.1 =
          [AnimEvent.stop animIdle, AnimEvent.start animDrawArrow false]
      ∧ (onRightClick ⟨false, true, allAnims, some animIdle, 0.1, ⟨0, 0, 0⟩, 1, false⟩).2.2 =
          [(1000, TimerCb.drawToOverdraw)])
    ∧ ((applyTimer TimerCb.drawToOverdraw
          ⟨true, true, allAnims, some animDrawArrow, 0.05, ⟨0, 0, 0⟩, 1, false⟩).1.currentAnimation
        = some animAimOverdraw)
    ∧ ((onRightClick
          ⟨true, true, allAnims, some animAimOverdraw, 0.05, ⟨0, 0, 0⟩, 1, false⟩).2.2 =
        [(500, TimerCb.recoilToIdle)])
    ∧ ((applyTimer TimerCb.recoilToIdle
          ⟨false, true, allAnims, some animAimRecoil, 0.1, ⟨0, 0, 0⟩, 1, false⟩).1.currentAnimation
        = some animIdle) := by
  have h1 := (aimTransition_clips
      ⟨false, true, allAnims, some animIdle, 0.1, ⟨0, 0, 0⟩, 1, false⟩).1
      rfl rfl (by simp [allAnims]) (by simp [animIdle, animDrawArrow])
  have h2 := (aimTransition_clips
      ⟨true, true, allAnims, some animDrawArrow, 0.05, ⟨0, 0, 0⟩, 1, false⟩).2.1
      rfl rfl (by simp [allAnims]) (by simp [animDrawArrow, animAimOverdraw])
  have h3 := (aimTransition_clips
      ⟨true, true, allAnims, some animAimOverdraw, 0.05, ⟨0, 0, 0⟩, 1, false⟩).2.2.1
      rfl rfl (by simp [allAnims]) (by simp [animAimOverdraw, animAimRecoil])
  have h4 := (aimTransition_clips
      ⟨false, true, allAnims, some animAimRecoil, 0.1, ⟨0, 0, 0⟩, 1, false⟩).2.2.2
      rfl rfl (by simp [allAnims]) (by simp [animAimRecoil, animIdle])
  exact ⟨⟨h1.1, h1.2.1, h1.2.2.1⟩, h2.1, h3.2.2.1, h4.1⟩

/-! ## Claim C4 -/

/-- Claim C4: toggling Aiming→Idle→Aiming within less than 500 ms (the
second click at `δ < 500`, strictly before the recoil timer is due)
leaves the draw clip playing: the stale recoil timer re-checks the
aiming flag when it fires and changes nothing, and the draw timer then
selects the aim-overdraw clip at its own 1000 ms delay after the
re-toggle. -/
theorem toggle_reentrancy (st : ArcherState) (δ : ℕ)
    (hA : st.isAiming = true) (hM : st.modelLoaded = true)
    (hrec : animAimRecoil ∈ st.animations) (hdraw : animDrawArrow ∈ st.animations)
    (hov : animAimOverdraw ∈ st.animations)
    (hcur : st.currentAnimation = some animAimOverdraw)
    (hδ : δ < 500) :
    (∀ p ∈ (((World.mk st 0 []).click).1.advanceTo δ).timers,
        (((World.mk st 0 []).click).1.advanceTo δ).now < p.1)
    ∧ ((((World.mk st 0 []).click).1.advanceTo δ).click).1.archer.currentAnimation =
        some animDrawArrow
    ∧ (((((World.mk st 0 []).click).1.advanceTo δ).click).1.fireNext).2 = []
    ∧ (((((World.mk st 0 []).click).1.advanceTo δ).click).1.fireNext).1.archer.currentAnimation =
        some animDrawArrow
    ∧ ((((((World.mk st 0 []).click).1.advanceTo δ).click).1.fireNext).1.fireNext).1.archer.currentAnimation =
        some animAimOverdraw
    ∧ ((((((World.mk st 0 []).click).1.advanceTo δ).click).1.fireNext).1.fireNext).2 =
        [AnimEvent.stop animDrawArrow, AnimEvent.start animAimOverdraw true]
    ∧ ((((((World.mk st 0 []).click).1.advanceTo δ).click).1.fireNext).1.fireNext).1.now =
        δ + 1000 := by
  have hcne1 : st.currentAnimation ≠ some animAimRecoil := by
    rw [hcur]
    simp [animAimOverdraw, animAimRecoil]
  have e1 := onRightClick_fromAiming st hA hM hrec hcne1
  have hw1 : (((World.mk st 0 []).click).1.advanceTo δ) =
      World.mk { st with isAiming := false, currentAnimation := some animAimRecoil } δ
        [(500, TimerCb.recoilToIdle)] := by
    simp [World.click, World.advanceTo, e1]
  have e2 := onRightClick_toAiming
    { st with isAiming := false, currentAnimation := some animAimRecoil }
    rfl hM hdraw (by simp [animAimRecoil, animDrawArrow])
  have hw2 : (World.mk { st with isAiming := false, currentAnimation := some animAimRecoil } δ
        [(500, TimerCb.recoilToIdle)]).click =
      (World.mk { st with isAiming := true, currentAnimation := some animDrawArrow } δ
          [(500, TimerCb.recoilToIdle), (δ + 1000, TimerCb.drawToOverdraw)],
        [AnimEvent.stop animAimRecoil, AnimEvent.start animDrawArrow false]) := by
    simp [World.click, e2]
  have e3 := applyTimer_recoil_stale
    { st with isAiming := true, currentAnimation := some animDrawArrow } rfl
  have hw3 : (World.mk { st with isAiming := true, currentAnimation := some animDrawArrow } δ
        [(500, TimerCb.recoilToIdle), (δ + 1000, TimerCb.drawToOverdraw)]).fireNext =
      (World.mk { st with isAiming := true, currentAnimation := some animDrawArrow } 500
          [(δ + 1000, TimerCb.drawToOverdraw)], []) := by
    simp only [World.fireNext, earliest]
    rw [if_pos (by omega : (500 : ℕ) ≤ δ + 1000)]
    simp [e3, List.erase, Nat.max_eq_right (Nat.le_of_lt hδ)]
  have e4 := applyTimer_draw_still_aiming
    { st with isAiming := true, currentAnimation := some animDrawArrow }
    rfl hM hov (by simp [animDrawArrow, animAimOverdraw])
  have hw4 : (World.mk { st with isAiming := true, currentAnimation := some animDrawArrow } 500
        [(δ + 1000, TimerCb.drawToOverdraw)]).fireNext =
      (World.mk { st with isAiming := true, currentAnimation := some animAimOverdraw }
          (δ + 1000) [],
        [AnimEvent.stop animDrawArrow, AnimEvent.start animAimOverdraw true]) := by
    simp only [World.fireNext, earliest]
    simp [e4, Nat.max_eq_right (by omega : (500 : ℕ) ≤ δ + 1000)]
  rw [hw1, hw2, hw3, hw4]
  refine ⟨?_, rfl, rfl, rfl, rfl, rfl, rfl⟩
  intro p hp
  simp only [List.mem_singleton] at hp
  subst hp
  exact hδ

/-- Witness for C4: the double toggle with the second click at 100 ms,
from the steady aiming state with all clips loaded. -/
theorem toggle_reentrancy_witness :
    aimingOverdrawState.isAiming = true
    ∧ (100 : ℕ) < 500
    ∧ (∀ p ∈ (((World.mk aimingOverdrawState 0 []).click).1.advanceTo 100).timers,
        (((World.mk aimingOverdrawState 0 []).click).1.advanceTo 100).now < p.1)
    ∧ ((((World.mk aimingOverdrawState 0 []).click).1.advanceTo 100).click).1.archer.currentAnimation =
        some animDrawArrow
    ∧ (((((World.mk aimingOverdrawState 0 []).click).1.advanceTo 100).click).1.fireNext).2 = []
    ∧ (((((World.mk aimingOverdrawState 0 []).click).1.advanceTo 100).click).1.fireNext).1.archer.currentAnimation =
        some animDrawArrow
    ∧ ((((((World.mk aimingOverdrawState 0 []).click).1.advanceTo 100).click).1.fireNext).1.fireNext).1.archer.currentAnimation =
        some animAimOverdraw
    ∧ ((((((World.mk aimingOverdrawState 0 []).click).1.advanceTo 100).click).1.fireNext).1.fireNext).2 =
        [AnimEvent.stop animDrawArrow, AnimEvent.start animAimOverdraw true]
    ∧ ((((((World.mk aimingOverdrawState 0 []).click).1.advanceTo 100).click).1.fireNext).1.fireNext).1.now =
        100 + 1000 := by
  have h := toggle_reentrancy aimingOverdrawState 100 rfl rfl
    (by simp [aimingOverdrawState, allAnims])
    (by simp [aimingOverdrawState, allAnims])
    (by simp [aimingOverdrawState, allAnims])
    rfl (by omega)
  exact ⟨rfl, by omega, h.1, h.2.1, h.2.2.1, h.2.2.2.1, h.2.2.2.2.1, h.2.2.2.2.2.1,
    h.2.2.2.2.2.2⟩

/-! ## Claim C7: not-loaded degradation -/

theorem selectAnimation_not_loaded (im : InputManager) (st : ArcherState)
    (h : st.modelLoaded = false) : selectAnimation im st = (st, []) := by
  simp only [selectAnimation]
  rw [if_neg (fun hc => by rw [h] at hc ; exact absurd hc.1 (by simp))]

theorem archerUpdate_not_loaded (im : InputManager) (st : ArcherState)
    (h : st.modelLoaded = false) :
    archerUpdate im st =
      (archerMove im { st with moveSpeed := if st.isAiming = true then (0.05 : ℝ) else 0.1 },
        []) := by
  rw [archerUpdate_eq_select]
  exact selectAnimation_not_loaded im _ ((archerMove_preserves im _).2.1.trans h)

theorem onRightClick_not_loaded (st : ArcherState) (h : st.modelLoaded = false) :
    (onRightClick st).2.1 = []
    ∧ (onRightClick st).2.2 = []
    ∧ (onRightClick st).1.modelLoaded = false
    ∧ (onRightClick st).1.isAiming = !st.isAiming
    ∧ (onRightClick st).1.position = st.position := by
  simp only [onRightClick]
  split_ifs with h1 h2 h3
  · exact absurd (h ▸ h2.1) (by simp)
  · simp [h]
  · exact absurd (h ▸ h3.1) (by simp)
  · simp [h]

theorem applyTimer_not_loaded (cb : TimerCb) (st : ArcherState)
    (h : st.modelLoaded = false) : applyTimer cb st = (st, []) := by
  cases cb <;>
    · simp only [applyTimer]
      split_ifs with h1
      · exact playAnimation_not_loaded st _ _ h
      · rfl

theorem step_not_loaded (w : World) (op : Op) (h : w.archer.modelLoaded = false) :
    (w.step op).2 = [] ∧ (w.step op).1.archer.modelLoaded = false := by
  cases op with
  | frame im =>
      simp only [World.step]
      rw [archerUpdate_not_loaded im w.archer h]
      exact ⟨rfl, (archerMove_preserves im _).2.1.trans h⟩
  | click =>
      have hc := onRightClick_not_loaded w.archer h
      simp only [World.step, World.click]
      exact ⟨hc.1, hc.2.2.1⟩
  | fire =>
      cases hE : earliest w.timers with
      | none => simp [World.step, World.fireNext, hE, h]
      | some tm =>
          simp [World.step, World.fireNext, hE, applyTimer_not_loaded tm.2 w.archer h, h]

/-- Claim C7: if the asset pipeline never completes, the whole session
emits zero clip-start calls — every animation-selection step is a no-op
— while the controller stays fully functional: the model stays
unloaded, a click still flips the aiming flag, and a frame still moves
the position exactly as the movement step prescribes. -/
theorem assets_never_loaded_degrades (w : World) (ops : List Op)
    (h : w.archer.modelLoaded = false) :
    (World.run w ops).2 = []
    ∧ (World.run w ops).1.archer.modelLoaded = false
    ∧ (w.step Op.click).1.archer.isAiming = !w.archer.isAiming
    ∧ (∀ im, (w.step (Op.frame im)).1.archer.position =
        (archerMove im
          { w.archer with
            moveSpeed := if w.archer.isAiming = true then (0.05 : ℝ) else 0.1 }).position) := by
  have main : ∀ (w' : World), w'.archer.modelLoaded = false →
      (World.run w' ops).2 = [] ∧ (World.run w' ops).1.archer.modelLoaded = false := by
    induction ops with
    | nil =>
        intro w' h'
        exact ⟨rfl, h'⟩
    | cons op rest ih =>
        intro w' h'
        have hs := step_not_loaded w' op h'
        have hr := ih (w'.step op).1 hs.2
        simp only [World.run]
        exact ⟨by rw [hs.1, hr.1] ; rfl, hr.2⟩
  have hclick := onRightClick_not_loaded w.archer h
  refine ⟨(main w h).1, (main w h).2, hclick.2.2.2.1, fun im => ?_⟩
  simp only [World.step]
  rw [archerUpdate_not_loaded im w.archer h]

/-- Witness for C7: a three-step session (click, forward frame, timer
fire) from a fresh unloaded state emits no animation events. -/
theorem assets_never_loaded_degrades_witness :
    (⟨false, false, [], none, 0.1, ⟨0, 0, 0⟩, 1, false⟩ : ArcherState).modelLoaded = false
    ∧ (World.run (World.mk ⟨false, false, [], none, 0.1, ⟨0, 0, 0⟩, 1, false⟩ 0 [])
        [Op.click, Op.frame (wasdInput true false false false), Op.fire]).2 = []
    ∧ (World.run (World.mk ⟨false, false, [], none, 0.1, ⟨0, 0, 0⟩, 1, false⟩ 0 [])
        [Op.click, Op.frame (wasdInput true false false false), Op.fire]).1.archer.modelLoaded =
        false
    ∧ ((World.mk ⟨false, false, [], none, 0.1, ⟨0, 0, 0⟩, 1, false⟩ 0 []).step
        Op.click).1.archer.isAiming = true := by
  have h := assets_never_loaded_degrades
    (World.mk ⟨false, false, [], none, 0.1, ⟨0, 0, 0⟩, 1, false⟩ 0 [])
    [Op.click, Op.frame (wasdInput true false false false), Op.fire] rfl
  exact ⟨rfl, h.1, h.2.1, h.2.2.1⟩

end BetterDays
